import Mathlib

/-
Shallow embedding of src/visualization.py (Shakespeare-Generator repository).

Tensors of floating point numbers are modelled as lists of real numbers
(`Vec`) and lists of rows (`Mat`); `F.linear(v, W)` is the matrix-vector
product with the rows of `W`; elementwise tensor arithmetic becomes
`List.zipWith`/`List.map`.  A batch of token sequences is a list of
sequences, and every batched torch operation used by the script acts
row-by-row, so batched cell evaluation is a `List.map` over the rows.
Fallible Python operations (dict lookup raising KeyError, `state[0]` on
`None` raising TypeError) are modelled with `Option`.
-/

namespace Visualization

noncomputable section

/-- torch.sigmoid: `sigmoid x = 1 / (1 + exp (-x))`. -/
def sigmoid (x : ℝ) : ℝ := 1 / (1 + Real.exp (-x))

/-- a row / 1-d tensor of reals. -/
abbrev Vec := List ℝ

/-- a matrix / 2-d tensor as its list of rows. -/
abbrev Mat := List Vec

/-- dot product of two rows (extra trailing entries of the longer row are
ignored; all uses in the embedding are on rows of equal length). -/
def dot : Vec → Vec → ℝ
  | [], _ => 0
  | _ :: _, [] => 0
  | a :: as, b :: bs => a * b + dot as bs

/-- `F.linear(v, W)` with no bias: the vector of dot products of the rows
of `W` with `v`. -/
def matvec (W : Mat) (v : Vec) : Vec := W.map (fun row => dot row v)

/-- elementwise product of two tensors (torch `*`). -/
def hadamard (a b : Vec) : Vec := List.zipWith (fun x y => x * y) a b

/-- elementwise sum of two tensors (torch `+`). -/
def vadd (a b : Vec) : Vec := List.zipWith (fun x y => x + y) a b

/-- elementwise `1 - a` (torch `1 - t`). -/
def onesMinus (a : Vec) : Vec := a.map (fun x => 1 - x)

/-- `torch.zeros(n)`. -/
def zeros (n : ℕ) : Vec := List.replicate n 0

/-- a fresh `torch.Tensor(r, c)` whose entries are given by the draw `w`
(the script fills them with `uniform_`; the draw is kept abstract). -/
def mkMatrix (r c : ℕ) (w : ℕ → ℕ → ℝ) : Mat :=
  (List.range r).map (fun i => (List.range c).map (fun j => w i j))

/-- list traversal in the `Option` monad: a Python list comprehension that
raises (KeyError) on the first failing element. -/
def traverseOption (f : α → Option β) : List α → Option (List β)
  | [] => some []
  | a :: as =>
    match f a, traverseOption f as with
    | some b, some bs => some (b :: bs)
    | _, _ => none

/-- VisualizeCoupledLSTMCell: configuration and parameters
(src/visualization.py lines 189-201). -/
structure VisualizeCoupledLSTMCell where
  input_size : ℕ
  hidden_size : ℕ
  W_f : Mat
  W_c : Mat
  W_o : Mat

/-- VisualizeCoupledLSTMCell.forward (src/visualization.py lines 203-220),
one batch row: when `prev_state` is `none` the previous hidden and cell
states are zero vectors; `f = sigmoid (W_f (h ++ x))`,
`o = sigmoid (W_o (h ++ x))`, `c_tilde = tanh (W_c (h ++ x))`,
`next_c = f * c + (1 - f) * c_tilde`, `next_h = o * tanh next_c`;
returns `(next_h, next_c, (f, o, c_tilde))`. -/
def coupledLSTMForward (cell : VisualizeCoupledLSTMCell) (x : Vec)
    (prev_state : Option (Vec × Vec)) : Vec × Vec × (Vec × Vec × Vec) :=
  let prev_h := match prev_state with
    | none => zeros cell.hidden_size
    | some s => s.1
  let prev_c := match prev_state with
    | none => zeros cell.hidden_size
    | some s => s.2
  let concat_hx := prev_h ++ x
  let f := (matvec cell.W_f concat_hx).map sigmoid
  let o := (matvec cell.W_o concat_hx).map sigmoid
  let c_tilde := (matvec cell.W_c concat_hx).map Real.tanh
  let next_c := vadd (hadamard f prev_c) (hadamard (onesMinus f) c_tilde)
  let next_h := hadamard o (next_c.map Real.tanh)
  (next_h, next_c, (f, o, c_tilde))

/-- VisualizeGRUCell: configuration and parameters
(src/visualization.py lines 58-70). -/
structure VisualizeGRUCell where
  input_size : ℕ
  hidden_size : ℕ
  W_z : Mat
  W_r : Mat
  W : Mat

/-- VisualizeGRUCell.forward (src/visualization.py lines 72-84), one batch
row: when `prev_state` is `none` the previous hidden state is the zero
vector; `z = sigmoid (W_z (h ++ x))`, `r = sigmoid (W_r (h ++ x))`,
`h_tilde = tanh (W ((r * h) ++ x))`,
`next_h = (1 - z) * h + z * h_tilde`; returns `(next_h, (z, r, h_tilde))`. -/
def gruForward (cell : VisualizeGRUCell) (x : Vec) (prev_state : Option Vec) :
    Vec × (Vec × Vec × Vec) :=
  let prev_h := match prev_state with
    | none => zeros cell.hidden_size
    | some h => h
  let concat_hx := prev_h ++ x
  let z := (matvec cell.W_z concat_hx).map sigmoid
  let r := (matvec cell.W_r concat_hx).map sigmoid
  let h_tilde := (matvec cell.W (hadamard r prev_h ++ x)).map Real.tanh
  let next_h := vadd (hadamard (onesMinus z) prev_h) (hadamard z h_tilde)
  (next_h, (z, r, h_tilde))

/-- module constants (src/visualization.py lines 14-17). -/
def PADDING_TOKEN : ℕ := 0

/-- fixed checkpoint vocabulary size (line 15). -/
def CKPT_VOCABULARY_SIZE : ℕ := 82

/-- fixed checkpoint embedding dimension (line 16). -/
def CKPT_EMBEDDING_DIM : ℕ := 256

/-- fixed checkpoint hidden size (line 17). -/
def CKPT_HIDDEN_SIZE : ℕ := 128

/-- nn.Embedding: configuration and weight table. -/
structure Embedding where
  num_embeddings : ℕ
  embedding_dim : ℕ
  padding_idx : ℕ
  weight : Mat

/-- nn.Embedding(num_embeddings, embedding_dim, padding_idx) constructor:
a `num_embeddings x embedding_dim` table from the random draw `w`, with
the row at `padding_idx` zeroed as torch does at initialisation. -/
def embeddingInit (num_embeddings embedding_dim padding_idx : ℕ)
    (w : ℕ → ℕ → ℝ) : Embedding :=
  { num_embeddings := num_embeddings
    embedding_dim := embedding_dim
    padding_idx := padding_idx
    weight := (List.range num_embeddings).map (fun i =>
      if i = padding_idx then zeros embedding_dim
      else (List.range embedding_dim).map (fun j => w i j)) }

/-- embedding lookup of one token: the row of the weight table. -/
def embeddingLookup (e : Embedding) (t : ℕ) : Vec := e.weight.getD t []

/-- nn.Linear: configuration, weight and bias. -/
structure Linear where
  in_features : ℕ
  out_features : ℕ
  weight : Mat
  bias : Vec

/-- nn.Linear applied to one row: `W v + b`. -/
def linearForward (l : Linear) (v : Vec) : Vec :=
  vadd (matvec l.weight v) l.bias

/-- the random draws consumed by `VisualizeInternalGates.__init__`
(each `uniform_` call is kept abstract as a function of the indices). -/
structure Draws where
  emb : ℕ → ℕ → ℝ
  wf : ℕ → ℕ → ℝ
  wc : ℕ → ℕ → ℝ
  wo : ℕ → ℕ → ℝ
  cw : ℕ → ℕ → ℝ
  cb : ℕ → ℝ

/-- VisualizeInternalGates: embedding, coupled-LSTM cell and classifier
(src/visualization.py lines 20-34). -/
structure VisualizeInternalGates where
  embedding : Embedding
  rnn_model : VisualizeCoupledLSTMCell
  classifier : Linear

/-- VisualizeInternalGates.__init__ (src/visualization.py lines 22-34):
embedding 82 tokens -> 256, coupled LSTM cell 256 -> 128, classifier
128 -> 82; the weight values come from the abstract draws. -/
def visualizeInternalGatesInit (d : Draws) : VisualizeInternalGates :=
  { embedding := embeddingInit CKPT_VOCABULARY_SIZE CKPT_EMBEDDING_DIM
      PADDING_TOKEN d.emb
    rnn_model :=
      { input_size := CKPT_EMBEDDING_DIM
        hidden_size := CKPT_HIDDEN_SIZE
        W_f := mkMatrix CKPT_HIDDEN_SIZE
          (CKPT_HIDDEN_SIZE + CKPT_EMBEDDING_DIM) d.wf
        W_c := mkMatrix CKPT_HIDDEN_SIZE
          (CKPT_HIDDEN_SIZE + CKPT_EMBEDDING_DIM) d.wc
        W_o := mkMatrix CKPT_HIDDEN_SIZE
          (CKPT_HIDDEN_SIZE + CKPT_EMBEDDING_DIM) d.wo }
    classifier :=
      { in_features := CKPT_HIDDEN_SIZE
        out_features := CKPT_VOCABULARY_SIZE
        weight := mkMatrix CKPT_VOCABULARY_SIZE CKPT_HIDDEN_SIZE d.cw
        bias := (List.range CKPT_VOCABULARY_SIZE).map d.cb } }

/-- a batched hidden/cell state: one row per batch element. -/
abbrev BatchState := List Vec × List Vec

/-- the batched gate signals of one step: the `f`, `o` and `c_tilde`
rows for every batch element. -/
abbrev BatchGates := List Vec × List Vec × List Vec

/-- the coupled cell on a batch of rows: every torch operation in
`VisualizeCoupledLSTMCell.forward` acts row-by-row, so the batched call
is the single-row call mapped over the rows (zipped with the matching
state rows when a previous state is present). -/
def coupledForwardBatch (cell : VisualizeCoupledLSTMCell) (xs : List Vec)
    (state : Option BatchState) : List Vec × List Vec × BatchGates :=
  let rows : List (Vec × Vec × (Vec × Vec × Vec)) :=
    match state with
    | none => xs.map (fun x => coupledLSTMForward cell x none)
    | some s => (xs.zip (s.1.zip s.2)).map
        (fun p => coupledLSTMForward cell p.1 (some (p.2.1, p.2.2)))
  (rows.map (fun r => r.1), rows.map (fun r => r.2.1),
    (rows.map (fun r => r.2.2.1), rows.map (fun r => r.2.2.2.1),
     rows.map (fun r => r.2.2.2.2)))

/-- the time-step loop of `VisualizeInternalGates.forward` (lines 42-45):
process the listed step indices in order, threading the state and
collecting each step's gate signals in order. -/
def runInternals (cell : VisualizeCoupledLSTMCell) (data : List (List Vec)) :
    List ℕ → Option BatchState → Option BatchState × List BatchGates
  | [], state => (state, [])
  | step :: rest, state =>
    let r := coupledForwardBatch cell
      (data.map (fun seq => seq.getD step [])) state
    let t := runInternals cell data rest (some (r.1, r.2.1))
    (t.1, r.2.2 :: t.2)

/-- the `outputs` dictionary built at src/visualization.py lines 50-54. -/
structure GateOutputs where
  update_signals : List (List Vec)
  reset_signals : List (List Vec)
  cell_state_candidates : List (List Vec)

/-- VisualizeInternalGates.forward (src/visualization.py lines 36-55) on a
batch of token sequences: embed, loop the cell over the time steps, read
the classifier on the final hidden state and regroup the collected gate
signals by gate.  When `total_steps = 0` the state is still `None` at
line 47 and `state[0]` raises, modelled by `none`. -/
def internalGatesForward (m : VisualizeInternalGates)
    (batch_reviews : List (List ℕ)) :
    Option (List Vec × GateOutputs) :=
  let data := batch_reviews.map (fun seq =>
    seq.map (embeddingLookup m.embedding))
  let total_steps := (data.headD []).length
  let r := runInternals m.rnn_model data (List.range total_steps) none
  match r.1 with
  | none => none
  | some st =>
    some (st.1.map (linearForward m.classifier),
      { update_signals := r.2.map (fun g => g.1)
        reset_signals := r.2.map (fun g => g.2.1)
        cell_state_candidates := r.2.map (fun g => g.2.2) })

/-- the last index `i` with `vocab[i] = c`, if any: the value stored for
`c` by the dict comprehension at src/visualization.py line 247 (later
enumeration entries overwrite earlier ones). -/
def lastIndexOf (vocab : List Char) (c : Char) : Option ℕ :=
  match vocab with
  | [] => none
  | v :: vs =>
    match lastIndexOf vs c with
    | some k => some (k + 1)
    | none => if v = c then some 0 else none

/-- `self.char2index[c]` (dict lookup; `none` is a KeyError). -/
def char2index (vocab : List Char) (c : Char) : Option ℕ :=
  lastIndexOf vocab c

/-- `self.index2char[i]` (dict lookup; `none` is a KeyError; the keys of
`enumerate` are distinct so the entry for `i` is `vocab[i]`). -/
def index2char (vocab : List Char) (i : ℕ) : Option Char :=
  vocab[i]?

/-- VisualizeWarAndPeaceDataset (src/visualization.py lines 234-259):
the vocabulary from the checkpoint and the lines of
`data/war_and_peace_visualize.txt` (the file content is not in the
repository, so `data` stands for `raw_text.strip().split(chr 10)`). -/
structure VisualizeWarAndPeaceDataset where
  vocabulary : List Char
  data : List String

/-- `__getitem__` (line 253-254): the index sequence of the characters of
line `index`; a character outside the vocabulary raises KeyError. -/
def getItem (ds : VisualizeWarAndPeaceDataset) (index : ℕ) :
    Option (List ℕ) :=
  match ds.data[index]? with
  | none => none
  | some line => traverseOption (char2index ds.vocabulary) line.toList

/-- `convert_to_chars` (lines 256-259) on an index sequence. -/
def convert_to_chars (ds : VisualizeWarAndPeaceDataset)
    (sequence : List ℕ) : Option (List Char) :=
  traverseOption (index2char ds.vocabulary) sequence

/-- Python `str.lower()`: lower-case each character (the gate names are
plain ASCII). -/
def pyLower (s : String) : String := String.mk (s.data.map Char.toLower)

/-- the `S%02d_` file-name fragment built at line 298. -/
def sequenceIdTag (n : ℕ) : String :=
  "S" ++ (if n < 10 then "0" ++ toString n else toString n) ++ "_"

/-- one saved heatmap: its path, colour range, plotted rows (the per-step
gate rows, batch dimension already concatenated by `torch.cat`) and the
x-axis character labels. -/
structure SavedImage where
  sequence_id : ℕ
  path : String
  vmin : ℤ
  vmax : ℤ
  plotted : List Vec
  labels : List Char

/-- visualize_internals (src/visualization.py lines 262-299): picks the
colour floor from the gate name ('none' is the ValueError branch), and
saves `saving_dir + sequence-tag + gate_name.lower() + ".png"`. -/
def visualize_internals (sequence_id : ℕ) (sequence : List Char)
    (gate_name : String) (states : List (List Vec))
    (saving_dir : String) : Option SavedImage :=
  let vminOpt : Option ℤ :=
    if gate_name = "update_signals" ∨ gate_name = "reset_signals" then
      some 0
    else if gate_name = "cell_state_candidates" then some (-1)
    else none
  match vminOpt with
  | none => none
  | some vmin =>
    some { sequence_id := sequence_id
           path := saving_dir ++ sequenceIdTag sequence_id
             ++ pyLower gate_name ++ ".png"
           vmin := vmin
           vmax := 1
           plotted := states.flatMap (fun b => b)
           labels := sequence }

/-- the checkpoint file `data/war_and_peace_model_checkpoint.pt`: the
stored vocabulary plus the stored model tensors (kept abstract). -/
structure Checkpoint where
  vocabulary : List Char
  modelParams : Draws

/-- the model constructed by war_and_peace_visualizer (lines 305-309):
`VisualizeInternalGates()` is freshly initialised from random draws and
the `model.load_state_dict` call is commented out, so the checkpoint's
stored tensors are never copied into the model. -/
def warAndPeaceModel (_ckpt : Checkpoint) (freshDraws : Draws) :
    VisualizeInternalGates :=
  visualizeInternalGatesInit freshDraws

/-- the body of the visualizer loop (lines 316-320) over the listed
dataset indices: fetch the sequence, run the model on the batch of one,
and save the three gate heatmaps; any raised exception (KeyError,
TypeError, ValueError) aborts the program, leaving the images saved so
far. -/
def visualizerLoop (model : VisualizeInternalGates)
    (ds : VisualizeWarAndPeaceDataset) : List ℕ → List SavedImage
  | [] => []
  | i :: rest =>
    match getItem ds i with
    | none => []
    | some seq =>
      match convert_to_chars ds seq with
      | none => []
      | some chars =>
        match internalGatesForward model [seq] with
        | none => []
        | some r =>
          match visualize_internals i chars "update_signals"
              r.2.update_signals "visualize/",
            visualize_internals i chars "reset_signals"
              r.2.reset_signals "visualize/",
            visualize_internals i chars "cell_state_candidates"
              r.2.cell_state_candidates "visualize/" with
          | some a, some b, some c =>
            a :: b :: c :: visualizerLoop model ds rest
          | _, _, _ => []

/-- war_and_peace_visualizer (src/visualization.py lines 302-323): build
the dataset from the checkpoint vocabulary and the text lines, build the
(freshly initialised, never loaded) model, and iterate the DataLoader in
index order 0, 1, ..., len-1 with batch size 1. -/
def warAndPeaceRun (ckpt : Checkpoint) (freshDraws : Draws)
    (lines : List String) : List SavedImage :=
  let model := warAndPeaceModel ckpt freshDraws
  let ds : VisualizeWarAndPeaceDataset :=
    { vocabulary := ckpt.vocabulary, data := lines }
  visualizerLoop model ds (List.range ds.data.length)

/-! ### Basic facts about the activation functions -/

/-- the sigmoid is strictly positive. -/
theorem sigmoid_pos (x : ℝ) : 0 < sigmoid x := by
  unfold sigmoid
  have h := Real.exp_pos (-x)
  positivity

/-- the sigmoid is strictly below one. -/
theorem sigmoid_lt_one (x : ℝ) : sigmoid x < 1 := by
  unfold sigmoid
  have h := Real.exp_pos (-x)
  rw [div_lt_one (by linarith)]
  linarith

/-- the hyperbolic tangent is strictly below one. -/
theorem tanh_lt_one (x : ℝ) : Real.tanh x < 1 := by
  rw [Real.tanh_eq_sinh_div_cosh x, div_lt_one (Real.cosh_pos x)]
  exact Real.sinh_lt_cosh x

/-- the hyperbolic tangent is strictly above minus one. -/
theorem neg_one_lt_tanh (x : ℝ) : -1 < Real.tanh x := by
  rw [Real.tanh_eq_sinh_div_cosh x, lt_div_iff₀ (Real.cosh_pos x)]
  have h := Real.sinh_lt_cosh (-x)
  rw [Real.sinh_neg, Real.cosh_neg] at h
  linarith

/-- a strict convex combination of two values in the open interval
(-1, 1) stays in the open interval. -/
theorem convex_combo_mem (f c t : ℝ) (hf0 : 0 < f) (hf1 : f < 1)
    (hc0 : -1 < c) (hc1 : c < 1) (ht0 : -1 < t) (ht1 : t < 1) :
    -1 < f * c + (1 - f) * t ∧ f * c + (1 - f) * t < 1 := by
  constructor <;> nlinarith

/-! ### List access lemmas -/

/-- indexing a `zipWith`. -/
theorem getElem?_zipWith (f : ℝ → ℝ → ℝ) :
    ∀ (a b : List ℝ) (i : ℕ),
      (List.zipWith f a b)[i]? = a[i]?.bind (fun x => b[i]?.map (f x))
  | [], _, _ => by simp
  | _ :: _, [], _ => by simp
  | x :: xs, y :: ys, 0 => by simp
  | x :: xs, y :: ys, i + 1 => by
    simpa using getElem?_zipWith f xs ys i

/-- every element of a `zipWith` comes from elements of the inputs. -/
theorem of_mem_zipWith (f : ℝ → ℝ → ℝ) :
    ∀ (a b : List ℝ) (y : ℝ), y ∈ List.zipWith f a b →
      ∃ p ∈ a, ∃ q ∈ b, y = f p q
  | [], _, _, h => by simp at h
  | _ :: _, [], _, h => by simp at h
  | x :: xs, z :: zs, y, h => by
    rcases List.mem_cons.mp h with h | h
    · exact ⟨x, List.mem_cons_self x xs, z, List.mem_cons_self z zs, h⟩
    · obtain ⟨p, hp, q, hq, hy⟩ := of_mem_zipWith f xs zs y h
      exact ⟨p, List.mem_cons_of_mem x hp, q, List.mem_cons_of_mem z hq, hy⟩

/-- shape of a fresh matrix: `r` rows of length `c`. -/
theorem mkMatrix_shape (r c : ℕ) (w : ℕ → ℕ → ℝ) :
    (mkMatrix r c w).map List.length = List.replicate r c := by
  unfold mkMatrix
  rw [List.map_map, List.eq_replicate_iff]
  refine ⟨by simp, ?_⟩
  intro b hb
  obtain ⟨i, _, rfl⟩ := List.mem_map.mp hb
  simp

/-- shape of a fresh embedding table. -/
theorem embeddingInit_shape (n e p : ℕ) (w : ℕ → ℕ → ℝ) :
    (embeddingInit n e p w).weight.map List.length = List.replicate n e := by
  unfold embeddingInit
  rw [List.map_map, List.eq_replicate_iff]
  refine ⟨by simp, ?_⟩
  intro b hb
  obtain ⟨i, _, rfl⟩ := List.mem_map.mp hb
  by_cases h : i = p <;> simp [h, zeros]

/-- C6: every instantiation of `VisualizeInternalGates` has the fixed
checkpoint architecture: the embedding has 82 input tokens and output
dimension 256 (an 82 x 256 weight table), the recurrent cell has input
size 256 and hidden size 128 (three 128 x 384 weight matrices), and the
classifier maps 128 hidden units to 82 logits (an 82 x 128 weight matrix
with an 82-entry bias). -/
theorem C6_fixed_checkpoint_architecture (d : Draws) :
    (visualizeInternalGatesInit d).embedding.num_embeddings = 82 ∧
    (visualizeInternalGatesInit d).embedding.embedding_dim = 256 ∧
    (visualizeInternalGatesInit d).rnn_model.input_size = 256 ∧
    (visualizeInternalGatesInit d).rnn_model.hidden_size = 128 ∧
    (visualizeInternalGatesInit d).classifier.in_features = 128 ∧
    (visualizeInternalGatesInit d).classifier.out_features = 82 ∧
    (visualizeInternalGatesInit d).embedding.weight.map List.length =
      List.replicate 82 256 ∧
    (visualizeInternalGatesInit d).rnn_model.W_f.map List.length =
      List.replicate 128 384 ∧
    (visualizeInternalGatesInit d).rnn_model.W_c.map List.length =
      List.replicate 128 384 ∧
    (visualizeInternalGatesInit d).rnn_model.W_o.map List.length =
      List.replicate 128 384 ∧
    (visualizeInternalGatesInit d).classifier.weight.map List.length =
      List.replicate 82 128 ∧
    (visualizeInternalGatesInit d).classifier.bias.length = 82 := by
  refine ⟨rfl, rfl, rfl, rfl, rfl, rfl, ?_, ?_, ?_, ?_, ?_, by simp
    [visualizeInternalGatesInit, CKPT_VOCABULARY_SIZE]⟩ <;>
    simp only [visualizeInternalGatesInit] <;>
    first
      | exact embeddingInit_shape ..
      | exact mkMatrix_shape ..

/-! ### C3: the coupled LSTM cell against the published equations -/

/-- Written from the claim's equations: `f = sigmoid (W_f [h; x])`,
componentwise. -/
def specCoupledF (cell : VisualizeCoupledLSTMCell) (x h : Vec) (i : ℕ) :
    ℝ :=
  sigmoid (dot (cell.W_f.getD i []) (h ++ x))

/-- Written from the claim's equations: `o = sigmoid (W_o [h; x])`,
componentwise. -/
def specCoupledO (cell : VisualizeCoupledLSTMCell) (x h : Vec) (i : ℕ) :
    ℝ :=
  sigmoid (dot (cell.W_o.getD i []) (h ++ x))

/-- Written from the claim's equations: `c_tilde = tanh (W_c [h; x])`,
componentwise. -/
def specCoupledCt (cell : VisualizeCoupledLSTMCell) (x h : Vec) (i : ℕ) :
    ℝ :=
  Real.tanh (dot (cell.W_c.getD i []) (h ++ x))

/-- Written from the claim's equations:
`next_c = f * c + (1 - f) * c_tilde` (the input gate tied to `1 - f`),
componentwise. -/
def specCoupledNextC (cell : VisualizeCoupledLSTMCell) (x h c : Vec)
    (i : ℕ) : ℝ :=
  specCoupledF cell x h i * c.getD i 0 +
    (1 - specCoupledF cell x h i) * specCoupledCt cell x h i

/-- Written from the claim's equations: `next_h = o * tanh next_c`,
componentwise. -/
def specCoupledNextH (cell : VisualizeCoupledLSTMCell) (x h c : Vec)
    (i : ℕ) : ℝ :=
  specCoupledO cell x h i * Real.tanh (specCoupledNextC cell x h c i)

/-- C3: `VisualizeCoupledLSTMCell.forward` transcribes the published
coupled-gate equations.  For every input `x` and previous state `(h, c)`
the returned tuple is `(next_h, next_c, (f, o, c_tilde))` where,
componentwise, `f = sigmoid (W_f [h; x])`, `o = sigmoid (W_o [h; x])`,
`c_tilde = tanh (W_c [h; x])`, `next_c = f * c + (1 - f) * c_tilde` and
`next_h = o * tanh next_c`. -/
theorem C3_coupled_lstm_transcribes_equations
    (cell : VisualizeCoupledLSTMCell) (x h cv : Vec) (i : ℕ)
    (hf : i < cell.W_f.length) (ho : i < cell.W_o.length)
    (hc : i < cell.W_c.length) (hcl : i < cv.length) :
    (coupledLSTMForward cell x (some (h, cv))).2.2.1[i]? =
      some (specCoupledF cell x h i) ∧
    (coupledLSTMForward cell x (some (h, cv))).2.2.2.1[i]? =
      some (specCoupledO cell x h i) ∧
    (coupledLSTMForward cell x (some (h, cv))).2.2.2.2[i]? =
      some (specCoupledCt cell x h i) ∧
    (coupledLSTMForward cell x (some (h, cv))).2.1[i]? =
      some (specCoupledNextC cell x h cv i) ∧
    (coupledLSTMForward cell x (some (h, cv))).1[i]? =
      some (specCoupledNextH cell x h cv i) := by
  have hfe : ((matvec cell.W_f (h ++ x)).map sigmoid)[i]? =
      some (specCoupledF cell x h i) := by
    rw [List.getElem?_map, matvec, List.getElem?_map,
      List.getElem?_eq_getElem hf, Option.map_some', Option.map_some',
      specCoupledF, List.getD_eq_getElem]
  have hoe : ((matvec cell.W_o (h ++ x)).map sigmoid)[i]? =
      some (specCoupledO cell x h i) := by
    rw [List.getElem?_map, matvec, List.getElem?_map,
      List.getElem?_eq_getElem ho, Option.map_some', Option.map_some',
      specCoupledO, List.getD_eq_getElem]
  have hce : ((matvec cell.W_c (h ++ x)).map Real.tanh)[i]? =
      some (specCoupledCt cell x h i) := by
    rw [List.getElem?_map, matvec, List.getElem?_map,
      List.getElem?_eq_getElem hc, Option.map_some', Option.map_some',
      specCoupledCt, List.getD_eq_getElem]
  have hcle : cv[i]? = some (cv.getD i 0) := by
    rw [List.getElem?_eq_getElem hcl, List.getD_eq_getElem]
  have hnc : (vadd (hadamard ((matvec cell.W_f (h ++ x)).map sigmoid) cv)
        (hadamard (onesMinus ((matvec cell.W_f (h ++ x)).map sigmoid))
          ((matvec cell.W_c (h ++ x)).map Real.tanh)))[i]? =
      some (specCoupledNextC cell x h cv i) := by
    rw [vadd, getElem?_zipWith, hadamard, getElem?_zipWith, hfe, hcle,
      hadamard, getElem?_zipWith, onesMinus, List.getElem?_map, hfe, hce]
    simp [specCoupledNextC]
  refine ⟨?_, ?_, ?_, ?_, ?_⟩
  · simpa only [coupledLSTMForward] using hfe
  · simpa only [coupledLSTMForward] using hoe
  · simpa only [coupledLSTMForward] using hce
  · simpa only [coupledLSTMForward] using hnc
  · show (hadamard ((matvec cell.W_o (h ++ x)).map sigmoid)
        ((vadd (hadamard ((matvec cell.W_f (h ++ x)).map sigmoid) cv)
          (hadamard (onesMinus ((matvec cell.W_f (h ++ x)).map sigmoid))
            ((matvec cell.W_c (h ++ x)).map Real.tanh))).map
              Real.tanh))[i]? = _
    rw [hadamard, getElem?_zipWith, hoe, List.getElem?_map, hnc]
    simp [specCoupledNextH]

/-! ### C5: the GRU cell against the published equations -/

/-- Written from the claim's equations: `z = sigmoid (W_z [h; x])`,
componentwise. -/
def specGRUZ (cell : VisualizeGRUCell) (x h : Vec) (i : ℕ) : ℝ :=
  sigmoid (dot (cell.W_z.getD i []) (h ++ x))

/-- Written from the claim's equations: `r = sigmoid (W_r [h; x])`,
componentwise. -/
def specGRUR (cell : VisualizeGRUCell) (x h : Vec) (i : ℕ) : ℝ :=
  sigmoid (dot (cell.W_r.getD i []) (h ++ x))

/-- the vector of reset-gate components. -/
def specGRURVec (cell : VisualizeGRUCell) (x h : Vec) : Vec :=
  (List.range cell.W_r.length).map (specGRUR cell x h)

/-- Written from the claim's equations:
`h_tilde = tanh (W [r * h; x])`, componentwise. -/
def specGRUHt (cell : VisualizeGRUCell) (x h : Vec) (i : ℕ) : ℝ :=
  Real.tanh (dot (cell.W.getD i [])
    (List.zipWith (fun ri hi => ri * hi) (specGRURVec cell x h) h ++ x))

/-- Written from the claim's equations:
`next_h = (1 - z) * h + z * h_tilde`, componentwise. -/
def specGRUNextH (cell : VisualizeGRUCell) (x h : Vec) (i : ℕ) : ℝ :=
  (1 - specGRUZ cell x h i) * h.getD i 0 +
    specGRUZ cell x h i * specGRUHt cell x h i

/-- the code's reset vector is the componentwise spec vector. -/
theorem gru_reset_vec (cell : VisualizeGRUCell) (x h : Vec) :
    (matvec cell.W_r (h ++ x)).map sigmoid = specGRURVec cell x h := by
  unfold specGRURVec matvec
  apply List.ext_getElem (by simp)
  intro i h1 h2
  rw [List.getElem_map, List.getElem_map, List.getElem_map,
    List.getElem_range]
  rw [specGRUR, List.getD_eq_getElem]

/-- a `None` previous GRU state behaves as the zero state. -/
theorem gruForward_none (cell : VisualizeGRUCell) (x : Vec) :
    gruForward cell x none =
      gruForward cell x (some (zeros cell.hidden_size)) := rfl

/-- core componentwise description of `gruForward` on an explicit
previous hidden state. -/
theorem gruForward_components (cell : VisualizeGRUCell) (x h : Vec)
    (i : ℕ) (hz : i < cell.W_z.length) (hr : i < cell.W_r.length)
    (hW : i < cell.W.length) (hh : i < h.length) :
    (gruForward cell x (some h)).2.1[i]? = some (specGRUZ cell x h i) ∧
    (gruForward cell x (some h)).2.2.1[i]? =
      some (specGRUR cell x h i) ∧
    (gruForward cell x (some h)).2.2.2[i]? =
      some (specGRUHt cell x h i) ∧
    (gruForward cell x (some h)).1[i]? =
      some (specGRUNextH cell x h i) := by
  have hze : ((matvec cell.W_z (h ++ x)).map sigmoid)[i]? =
      some (specGRUZ cell x h i) := by
    rw [List.getElem?_map, matvec, List.getElem?_map,
      List.getElem?_eq_getElem hz, Option.map_some', Option.map_some',
      specGRUZ, List.getD_eq_getElem]
  have hre : ((matvec cell.W_r (h ++ x)).map sigmoid)[i]? =
      some (specGRUR cell x h i) := by
    rw [List.getElem?_map, matvec, List.getElem?_map,
      List.getElem?_eq_getElem hr, Option.map_some', Option.map_some',
      specGRUR, List.getD_eq_getElem]
  have hte : ((matvec cell.W
        (hadamard ((matvec cell.W_r (h ++ x)).map sigmoid) h ++ x)).map
          Real.tanh)[i]? = some (specGRUHt cell x h i) := by
    rw [gru_reset_vec, List.getElem?_map, matvec, List.getElem?_map,
      List.getElem?_eq_getElem hW, Option.map_some', Option.map_some',
      specGRUHt, List.getD_eq_getElem, hadamard]
  have hhe : h[i]? = some (h.getD i 0) := by
    rw [List.getElem?_eq_getElem hh, List.getD_eq_getElem]
  refine ⟨?_, ?_, ?_, ?_⟩
  · simpa only [gruForward] using hze
  · simpa only [gruForward] using hre
  · simpa only [gruForward] using hte
  · show (vadd
        (hadamard (onesMinus ((matvec cell.W_z (h ++ x)).map sigmoid)) h)
        (hadamard ((matvec cell.W_z (h ++ x)).map sigmoid)
          ((matvec cell.W
            (hadamard ((matvec cell.W_r (h ++ x)).map sigmoid) h
              ++ x)).map Real.tanh)))[i]? = _
    rw [vadd, getElem?_zipWith, hadamard, getElem?_zipWith, onesMinus,
      List.getElem?_map, hze, hhe, hadamard, getElem?_zipWith, hze, hte]
    simp [specGRUNextH]

/-- C5: `VisualizeGRUCell.forward` transcribes the published GRU
equations.  For every input `x` and previous state (`h` the zero vector
when `prev_state` is `None`), componentwise
`z = sigmoid (W_z [h; x])`, `r = sigmoid (W_r [h; x])`,
`h_tilde = tanh (W [r * h; x])` and
`next_h = (1 - z) * h + z * h_tilde`, and the cell returns
`(next_h, (z, r, h_tilde))`. -/
theorem C5_gru_transcribes_equations (cell : VisualizeGRUCell) (x : Vec)
    (prev_state : Option Vec) (h : Vec) (i : ℕ)
    (hdef : h = prev_state.getD (List.replicate cell.hidden_size 0))
    (hz : i < cell.W_z.length) (hr : i < cell.W_r.length)
    (hW : i < cell.W.length) (hh : i < h.length) :
    (gruForward cell x prev_state).2.1[i]? =
      some (specGRUZ cell x h i) ∧
    (gruForward cell x prev_state).2.2.1[i]? =
      some (specGRUR cell x h i) ∧
    (gruForward cell x prev_state).2.2.2[i]? =
      some (specGRUHt cell x h i) ∧
    (gruForward cell x prev_state).1[i]? =
      some (specGRUNextH cell x h i) := by
  cases prev_state with
  | none =>
    rw [gruForward_none]
    have hdef' : h = zeros cell.hidden_size := by
      simpa [zeros] using hdef
    subst hdef'
    exact gruForward_components cell x _ i hz hr hW hh
  | some hv =>
    have hdef' : h = hv := by simpa using hdef
    subst hdef'
    exact gruForward_components cell x h i hz hr hW hh

/-- C3 witness: the coupled-cell equations checked at a concrete
1-hidden-unit cell and concrete state. -/
theorem C3_coupled_lstm_transcribes_equations_witness :
    (0 : ℕ) < ([[(0 : ℝ)]] : Mat).length ∧
    (0 : ℕ) < ([(0 : ℝ)] : Vec).length ∧
    ((coupledLSTMForward ⟨0, 1, [[0]], [[0]], [[0]]⟩ []
        (some ([0], [0]))).2.2.1[0]? =
      some (specCoupledF ⟨0, 1, [[0]], [[0]], [[0]]⟩ [] [0] 0) ∧
    (coupledLSTMForward ⟨0, 1, [[0]], [[0]], [[0]]⟩ []
        (some ([0], [0]))).2.2.2.1[0]? =
      some (specCoupledO ⟨0, 1, [[0]], [[0]], [[0]]⟩ [] [0] 0) ∧
    (coupledLSTMForward ⟨0, 1, [[0]], [[0]], [[0]]⟩ []
        (some ([0], [0]))).2.2.2.2[0]? =
      some (specCoupledCt ⟨0, 1, [[0]], [[0]], [[0]]⟩ [] [0] 0) ∧
    (coupledLSTMForward ⟨0, 1, [[0]], [[0]], [[0]]⟩ []
        (some ([0], [0]))).2.1[0]? =
      some (specCoupledNextC ⟨0, 1, [[0]], [[0]], [[0]]⟩ [] [0] [0] 0) ∧
    (coupledLSTMForward ⟨0, 1, [[0]], [[0]], [[0]]⟩ []
        (some ([0], [0]))).1[0]? =
      some (specCoupledNextH ⟨0, 1, [[0]], [[0]], [[0]]⟩ [] [0] [0] 0)) :=
  ⟨by simp, by simp,
    C3_coupled_lstm_transcribes_equations ⟨0, 1, [[0]], [[0]], [[0]]⟩
      [] [0] [0] 0 (by simp) (by simp) (by simp) (by simp)⟩

/-- C5 witness: the GRU equations checked at a concrete 1-hidden-unit
cell replaying from the `None` (zero) state. -/
theorem C5_gru_transcribes_equations_witness :
    ([(0 : ℝ)] : Vec) =
      (none : Option Vec).getD (List.replicate 1 0) ∧
    (0 : ℕ) < ([[(0 : ℝ)]] : Mat).length ∧
    (0 : ℕ) < ([(0 : ℝ)] : Vec).length ∧
    ((gruForward ⟨0, 1, [[0]], [[0]], [[0]]⟩ [] none).2.1[0]? =
      some (specGRUZ ⟨0, 1, [[0]], [[0]], [[0]]⟩ [] [0] 0) ∧
    (gruForward ⟨0, 1, [[0]], [[0]], [[0]]⟩ [] none).2.2.1[0]? =
      some (specGRUR ⟨0, 1, [[0]], [[0]], [[0]]⟩ [] [0] 0) ∧
    (gruForward ⟨0, 1, [[0]], [[0]], [[0]]⟩ [] none).2.2.2[0]? =
      some (specGRUHt ⟨0, 1, [[0]], [[0]], [[0]]⟩ [] [0] 0) ∧
    (gruForward ⟨0, 1, [[0]], [[0]], [[0]]⟩ [] none).1[0]? =
      some (specGRUNextH ⟨0, 1, [[0]], [[0]], [[0]]⟩ [] [0] 0)) :=
  ⟨by simp, by simp, by simp,
    C5_gru_transcribes_equations ⟨0, 1, [[0]], [[0]], [[0]]⟩ [] none
      [0] 0 (by simp) (by simp) (by simp) (by simp) (by simp)⟩

/-! ### The replay loop, step by step -/

/-- the threaded state after the first `t` steps of the forward loop
(`none` before the first step, as at line 39). -/
def stateAfter (cell : VisualizeCoupledLSTMCell) (data : List (List Vec)) :
    ℕ → Option BatchState
  | 0 => none
  | t + 1 =>
    some ((coupledForwardBatch cell (data.map (fun s => s.getD t []))
        (stateAfter cell data t)).1,
      (coupledForwardBatch cell (data.map (fun s => s.getD t []))
        (stateAfter cell data t)).2.1)

/-- the gate signals the cell emits at step `t` of the replay. -/
def gatesAtStep (cell : VisualizeCoupledLSTMCell) (data : List (List Vec))
    (t : ℕ) : BatchGates :=
  (coupledForwardBatch cell (data.map (fun s => s.getD t []))
    (stateAfter cell data t)).2.2

/-- splitting the step list splits the loop. -/
theorem runInternals_append (cell : VisualizeCoupledLSTMCell)
    (data : List (List Vec)) :
    ∀ (s1 s2 : List ℕ) (st : Option BatchState),
      runInternals cell data (s1 ++ s2) st =
        ((runInternals cell data s2 (runInternals cell data s1 st).1).1,
          (runInternals cell data s1 st).2 ++
            (runInternals cell data s2
              (runInternals cell data s1 st).1).2)
  | [], s2, st => by simp [runInternals]
  | a :: s1, s2, st => by
    simp [runInternals, runInternals_append cell data s1 s2]

/-- the loop collects exactly one gate triple per step. -/
theorem runInternals_trace_length (cell : VisualizeCoupledLSTMCell)
    (data : List (List Vec)) :
    ∀ (steps : List ℕ) (st : Option BatchState),
      (runInternals cell data steps st).2.length = steps.length
  | [], _ => rfl
  | a :: steps, st => by
    simp [runInternals, runInternals_trace_length cell data steps]

/-- after a non-empty step list the threaded state is present. -/
theorem runInternals_final_some (cell : VisualizeCoupledLSTMCell)
    (data : List (List Vec)) :
    ∀ (steps : List ℕ) (st0 : Option BatchState), steps ≠ [] →
      ∃ stf, (runInternals cell data steps st0).1 = some stf
  | [], _, hne => absurd rfl hne
  | [a], st0, _ => ⟨_, rfl⟩
  | a :: b :: rest, st0, _ => by
    obtain ⟨stf, hstf⟩ := runInternals_final_some cell data (b :: rest)
      (some ((coupledForwardBatch cell (data.map (fun s => s.getD a []))
          st0).1,
        (coupledForwardBatch cell (data.map (fun s => s.getD a []))
          st0).2.1)) (by simp)
    exact ⟨stf, by simpa [runInternals] using hstf⟩

/-- the threaded state of the loop over steps `0.. t-1` is `stateAfter t`. -/
theorem stateAfter_eq_run (cell : VisualizeCoupledLSTMCell)
    (data : List (List Vec)) :
    ∀ t, stateAfter cell data t =
      (runInternals cell data (List.range t) none).1
  | 0 => rfl
  | t + 1 => by
    rw [List.range_succ, runInternals_append,
      ← stateAfter_eq_run cell data t]
    simp [runInternals, stateAfter]

/-- the `t`-th collected gate triple is the cell's output at step `t`
from the replayed state. -/
theorem runInternals_trace_getElem (cell : VisualizeCoupledLSTMCell)
    (data : List (List Vec)) :
    ∀ T t, t < T →
      (runInternals cell data (List.range T) none).2[t]? =
        some (gatesAtStep cell data t)
  | 0, t, h => absurd h (by simp)
  | T + 1, t, h => by
    rw [List.range_succ, runInternals_append]
    rcases Nat.lt_or_ge t T with hlt | hge
    · rw [List.getElem?_append_left (by
        rw [runInternals_trace_length]; simpa using hlt)]
      exact runInternals_trace_getElem cell data T t hlt
    · have ht : t = T := Nat.le_antisymm (Nat.lt_succ_iff.mp h) hge
      subst ht
      have hA : (runInternals cell data (List.range t) none).2.length
          = t := by
        rw [runInternals_trace_length]; exact List.length_range t
      have hB : (runInternals cell data [t]
          (runInternals cell data (List.range t) none).1).2 =
          [gatesAtStep cell data t] := by
        rw [← stateAfter_eq_run]
        simp [runInternals, gatesAtStep]
      rw [hB]
      show ((runInternals cell data (List.range t) none).2 ++
        [gatesAtStep cell data t])[t]? = some (gatesAtStep cell data t)
      rw [List.getElem?_append_right hA.le]
      simp [hA]

/-- the batched cell keeps one row per batch element. -/
theorem coupledForwardBatch_lengths (cell : VisualizeCoupledLSTMCell)
    (xs : List Vec) (st0 : Option BatchState)
    (h0 : ∀ st, st0 = some st →
      st.1.length = xs.length ∧ st.2.length = xs.length) :
    (coupledForwardBatch cell xs st0).1.length = xs.length ∧
    (coupledForwardBatch cell xs st0).2.1.length = xs.length := by
  cases st0 with
  | none => simp [coupledForwardBatch]
  | some st =>
    obtain ⟨h1, h2⟩ := h0 st rfl
    simp [coupledForwardBatch, h1, h2]

/-- the loop keeps one state row per batch element. -/
theorem runInternals_state_lengths (cell : VisualizeCoupledLSTMCell)
    (data : List (List Vec)) :
    ∀ (steps : List ℕ) (st0 : Option BatchState),
      (∀ st, st0 = some st →
        st.1.length = data.length ∧ st.2.length = data.length) →
      ∀ stf, (runInternals cell data steps st0).1 = some stf →
        stf.1.length = data.length ∧ stf.2.length = data.length
  | [], st0, h0, stf, hf => h0 stf (by simpa [runInternals] using hf)
  | a :: rest, st0, h0, stf, hf => by
    refine runInternals_state_lengths cell data rest _ ?_ stf
      (by simpa [runInternals] using hf)
    intro st hst
    have hxs : (data.map (fun s => s.getD a [])).length = data.length :=
      List.length_map ..
    have := coupledForwardBatch_lengths cell
      (data.map (fun s => s.getD a [])) st0 (by
        intro st' hst'
        simpa [hxs] using h0 st' hst')
    cases hst
    simpa [hxs] using this

/-- the head length of the embedded batch is the head length of the
token batch. -/
theorem embedded_head_length (m : VisualizeInternalGates)
    (batch : List (List ℕ)) :
    (((batch.map (fun s => s.map (embeddingLookup m.embedding))).headD
      []).length) = (batch.headD []).length := by
  cases batch <;> simp

/-- a linear layer always emits `min rows bias` entries. -/
theorem linearForward_length (l : Linear) (v : Vec) :
    (linearForward l v).length = min l.weight.length l.bias.length := by
  simp [linearForward, vadd, matvec]

/-- full characterization of a successful `forward` call: on a
non-empty rectangular batch the loop state is present and the result is
the classifier on the final hidden rows together with the per-gate
regrouping of the collected signals. -/
theorem internalGatesForward_success (m : VisualizeInternalGates)
    (batch : List (List ℕ)) (T : ℕ)
    (hrect : ∀ s ∈ batch, s.length = T) (hbe : batch ≠ [])
    (hT : 1 ≤ T) :
    ∃ st, (runInternals m.rnn_model
        (batch.map (fun s => s.map (embeddingLookup m.embedding)))
        (List.range T) none).1 = some st ∧
      internalGatesForward m batch =
        some (st.1.map (linearForward m.classifier),
          { update_signals := (runInternals m.rnn_model
              (batch.map (fun s => s.map (embeddingLookup m.embedding)))
              (List.range T) none).2.map (fun g => g.1)
            reset_signals := (runInternals m.rnn_model
              (batch.map (fun s => s.map (embeddingLookup m.embedding)))
              (List.range T) none).2.map (fun g => g.2.1)
            cell_state_candidates := (runInternals m.rnn_model
              (batch.map (fun s => s.map (embeddingLookup m.embedding)))
              (List.range T) none).2.map (fun g => g.2.2) }) := by
  have hhead : (((batch.map (fun s =>
      s.map (embeddingLookup m.embedding))).headD []).length) = T := by
    rw [embedded_head_length]
    cases batch with
    | nil => exact absurd rfl hbe
    | cons b bs => simpa using hrect b (by simp)
  obtain ⟨st, hst⟩ := runInternals_final_some m.rnn_model
    (batch.map (fun s => s.map (embeddingLookup m.embedding)))
    (List.range T) none (by simp [List.range_eq_nil]; omega)
  refine ⟨st, hst, ?_⟩
  simp only [internalGatesForward]
  rw [hhead, hst]

/-- a `forward` call with zero time steps fails at `state[0]`. -/
theorem internalGatesForward_zero_steps (m : VisualizeInternalGates)
    (batch : List (List ℕ)) (h0 : (batch.headD []).length = 0) :
    internalGatesForward m batch = none := by
  simp only [internalGatesForward]
  rw [embedded_head_length, h0]
  simp [runInternals]

/-- C2: on every non-empty rectangular batch, `forward` succeeds and its
`outputs` dictionary maps `update_signals` to the per-step first gate
signals of the recurrent cell (the coupling/forget activations `f`),
`reset_signals` to the per-step second gate signals (the output
activations `o`), and `cell_state_candidates` to the per-step cell
candidates `c_tilde`, each list holding one entry per time step of the
replay — these are exactly the three signals handed to the heatmaps. -/
theorem C2_outputs_dictionary (m : VisualizeInternalGates)
    (batch : List (List ℕ)) (T : ℕ)
    (hrect : ∀ s ∈ batch, s.length = T) (hbe : batch ≠ [])
    (hT : 1 ≤ T) :
    ∃ logits outs, internalGatesForward m batch = some (logits, outs) ∧
      outs.update_signals.length = T ∧
      outs.reset_signals.length = T ∧
      outs.cell_state_candidates.length = T ∧
      ∀ t, t < T →
        outs.update_signals[t]? = some ((gatesAtStep m.rnn_model
          (batch.map (fun s => s.map (embeddingLookup m.embedding)))
            t).1) ∧
        outs.reset_signals[t]? = some ((gatesAtStep m.rnn_model
          (batch.map (fun s => s.map (embeddingLookup m.embedding)))
            t).2.1) ∧
        outs.cell_state_candidates[t]? = some ((gatesAtStep m.rnn_model
          (batch.map (fun s => s.map (embeddingLookup m.embedding)))
            t).2.2) := by
  obtain ⟨st, hst, hfwd⟩ :=
    internalGatesForward_success m batch T hrect hbe hT
  refine ⟨_, _, hfwd, ?_, ?_, ?_, ?_⟩
  · simp [runInternals_trace_length]
  · simp [runInternals_trace_length]
  · simp [runInternals_trace_length]
  · intro t ht
    refine ⟨?_, ?_, ?_⟩ <;>
      rw [List.getElem?_map, runInternals_trace_getElem _ _ T t ht,
        Option.map_some']

/-- C2 witness: the theorem applied to a concrete one-token batch on a
concrete tiny model. -/
theorem C2_outputs_dictionary_witness :
    (∀ s ∈ ([[0]] : List (List ℕ)), s.length = 1) ∧
    (([[0]] : List (List ℕ)) ≠ []) ∧ (1 : ℕ) ≤ 1 ∧
    (∃ logits outs,
      internalGatesForward
        ⟨⟨1, 1, 0, [[(0 : ℝ)]]⟩, ⟨1, 1, [[0, 0]], [[0, 0]], [[0, 0]]⟩,
          ⟨1, 1, [[0]], [0]⟩⟩ [[0]] = some (logits, outs) ∧
      outs.update_signals.length = 1 ∧
      outs.reset_signals.length = 1 ∧
      outs.cell_state_candidates.length = 1 ∧
      ∀ t, t < 1 →
        outs.update_signals[t]? = some ((gatesAtStep
          (⟨1, 1, [[0, 0]], [[0, 0]], [[0, 0]]⟩ :
            VisualizeCoupledLSTMCell)
          ([[0]].map (fun s => s.map (embeddingLookup
            ⟨1, 1, 0, [[(0 : ℝ)]]⟩))) t).1) ∧
        outs.reset_signals[t]? = some ((gatesAtStep
          (⟨1, 1, [[0, 0]], [[0, 0]], [[0, 0]]⟩ :
            VisualizeCoupledLSTMCell)
          ([[0]].map (fun s => s.map (embeddingLookup
            ⟨1, 1, 0, [[(0 : ℝ)]]⟩))) t).2.1) ∧
        outs.cell_state_candidates[t]? = some ((gatesAtStep
          (⟨1, 1, [[0, 0]], [[0, 0]], [[0, 0]]⟩ :
            VisualizeCoupledLSTMCell)
          ([[0]].map (fun s => s.map (embeddingLookup
            ⟨1, 1, 0, [[(0 : ℝ)]]⟩))) t).2.2)) :=
  ⟨by decide, by decide, by decide,
    C2_outputs_dictionary
      ⟨⟨1, 1, 0, [[(0 : ℝ)]]⟩, ⟨1, 1, [[0, 0]], [[0, 0]], [[0, 0]]⟩,
        ⟨1, 1, [[0]], [0]⟩⟩ [[0]] 1 (by decide) (by decide) (by decide)⟩

/-- C10: `forward` needs a non-empty sequence.  On a rectangular batch
with `T >= 1` time steps it returns per-example logits of 82 entries
(on any model built by `__init__`) and three gate lists of length `T`;
with `T = 0` the threaded state stays `None`, the classifier read of
`state[0]` at line 47 has no hidden state, and the call fails, modelled
by `none`. -/
theorem C10_forward_requires_nonempty (d : Draws)
    (batch : List (List ℕ)) (T : ℕ)
    (hrect : ∀ s ∈ batch, s.length = T) (hbe : batch ≠ []) :
    (1 ≤ T → ∃ logits outs,
      internalGatesForward (visualizeInternalGatesInit d) batch =
        some (logits, outs) ∧
      logits.length = batch.length ∧
      (∀ row ∈ logits, row.length = 82) ∧
      outs.update_signals.length = T ∧
      outs.reset_signals.length = T ∧
      outs.cell_state_candidates.length = T) ∧
    (T = 0 →
      internalGatesForward (visualizeInternalGatesInit d) batch =
        none) := by
  constructor
  · intro hT
    obtain ⟨st, hst, hfwd⟩ := internalGatesForward_success
      (visualizeInternalGatesInit d) batch T hrect hbe hT
    have hstlen := runInternals_state_lengths _ _ (List.range T) none
      (by intro st' hst'; cases hst') st hst
    refine ⟨_, _, hfwd, ?_, ?_, ?_, ?_, ?_⟩
    · simpa using hstlen.1
    · intro row hrow
      obtain ⟨v, _, rfl⟩ := List.mem_map.mp hrow
      rw [linearForward_length]
      simp [visualizeInternalGatesInit, mkMatrix, CKPT_VOCABULARY_SIZE,
        CKPT_HIDDEN_SIZE]
    · simp [runInternals_trace_length]
    · simp [runInternals_trace_length]
    · simp [runInternals_trace_length]
  · intro hT0
    apply internalGatesForward_zero_steps
    cases batch with
    | nil => exact absurd rfl hbe
    | cons b bs => simpa [hT0] using hrect b (by simp)

/-- C10 witness: the theorem applied to a concrete two-token batch on a
freshly initialised model with all draws zero. -/
theorem C10_forward_requires_nonempty_witness :
    (∀ s ∈ ([[1, 2]] : List (List ℕ)), s.length = 2) ∧
    (([[1, 2]] : List (List ℕ)) ≠ []) ∧
    ((1 ≤ 2 → ∃ logits outs,
      internalGatesForward (visualizeInternalGatesInit
        ⟨fun _ _ => 0, fun _ _ => 0, fun _ _ => 0, fun _ _ => 0,
          fun _ _ => 0, fun _ => 0⟩) [[1, 2]] =
        some (logits, outs) ∧
      logits.length = ([[1, 2]] : List (List ℕ)).length ∧
      (∀ row ∈ logits, row.length = 82) ∧
      outs.update_signals.length = 2 ∧
      outs.reset_signals.length = 2 ∧
      outs.cell_state_candidates.length = 2) ∧
    (2 = 0 →
      internalGatesForward (visualizeInternalGatesInit
        ⟨fun _ _ => 0, fun _ _ => 0, fun _ _ => 0, fun _ _ => 0,
          fun _ _ => 0, fun _ => 0⟩) [[1, 2]] = none)) :=
  ⟨by decide, by decide,
    C10_forward_requires_nonempty
      ⟨fun _ _ => 0, fun _ _ => 0, fun _ _ => 0, fun _ _ => 0,
        fun _ _ => 0, fun _ => 0⟩ [[1, 2]] 2 (by decide) (by decide)⟩

/-! ### C8: bounds on gates and cell state -/

/-- reading one entry of a `zipWith`, with the bounds on both inputs. -/
theorem getElem_zipWith_exists (f : ℝ → ℝ → ℝ) (a b : List ℝ) (i : ℕ)
    (h : i < (List.zipWith f a b).length) :
    ∃ (ha : i < a.length) (hb : i < b.length),
      (List.zipWith f a b)[i] = f a[i] b[i] := by
  rw [List.length_zipWith, lt_min_iff] at h
  refine ⟨h.1, h.2, ?_⟩
  have hq := getElem?_zipWith f a b i
  rw [List.getElem?_eq_getElem (by rw [List.length_zipWith]; omega),
    List.getElem?_eq_getElem h.1, List.getElem?_eq_getElem h.2] at hq
  rw [Option.some_bind, Option.map_some'] at hq
  exact Option.some.inj hq

/-- one row of the coupled cell keeps its gates in (0,1), its candidates
in (-1,1), and — provided the incoming cell state is in (-1,1)
componentwise (the zero state when `prev` is `None`) — its next cell
state in (-1,1). -/
theorem coupledLSTMForward_bounds (cell : VisualizeCoupledLSTMCell)
    (x : Vec) (prev : Option (Vec × Vec))
    (hc : ∀ st, prev = some st → ∀ v ∈ st.2, -1 < v ∧ v < 1) :
    (∀ v ∈ (coupledLSTMForward cell x prev).2.2.1, 0 < v ∧ v < 1) ∧
    (∀ v ∈ (coupledLSTMForward cell x prev).2.2.2.1, 0 < v ∧ v < 1) ∧
    (∀ v ∈ (coupledLSTMForward cell x prev).2.2.2.2, -1 < v ∧ v < 1) ∧
    (∀ v ∈ (coupledLSTMForward cell x prev).2.1, -1 < v ∧ v < 1) := by
  have hpc : ∀ v ∈ (match prev with
      | none => zeros cell.hidden_size
      | some s => s.2), -1 < v ∧ v < 1 := by
    cases prev with
    | none =>
      intro v hv
      simp only [zeros] at hv
      rw [List.eq_of_mem_replicate hv]
      norm_num
    | some st => exact hc st rfl
  refine ⟨?_, ?_, ?_, ?_⟩
  · intro v hv
    obtain ⟨u, _, rfl⟩ := List.mem_map.mp hv
    exact ⟨sigmoid_pos u, sigmoid_lt_one u⟩
  · intro v hv
    obtain ⟨u, _, rfl⟩ := List.mem_map.mp hv
    exact ⟨sigmoid_pos u, sigmoid_lt_one u⟩
  · intro v hv
    obtain ⟨u, _, rfl⟩ := List.mem_map.mp hv
    exact ⟨neg_one_lt_tanh u, tanh_lt_one u⟩
  · intro v hv
    simp only [coupledLSTMForward, vadd, hadamard, onesMinus] at hv
    obtain ⟨i, hi, rfl⟩ := List.mem_iff_getElem.mp hv
    obtain ⟨hX, hY, hval⟩ := getElem_zipWith_exists _ _ _ i hi
    obtain ⟨hf1, hpc1, hXv⟩ := getElem_zipWith_exists _ _ _ i hX
    obtain ⟨hom1, hct1, hYv⟩ := getElem_zipWith_exists _ _ _ i hY
    rw [hval, hXv, hYv]
    simp only [List.getElem_map]
    exact convex_combo_mem _ _ _ (sigmoid_pos _) (sigmoid_lt_one _)
      (hpc _ (List.getElem_mem hpc1)).1 (hpc _ (List.getElem_mem hpc1)).2
      (neg_one_lt_tanh _) (tanh_lt_one _)

/-- the batched cell keeps all gate rows in their ranges, given bounded
incoming cell-state rows. -/
theorem coupledForwardBatch_bounds (cell : VisualizeCoupledLSTMCell)
    (xs : List Vec) (st0 : Option BatchState)
    (h0 : ∀ st, st0 = some st →
      ∀ row ∈ st.2, ∀ v ∈ row, -1 < v ∧ v < 1) :
    (∀ row ∈ (coupledForwardBatch cell xs st0).2.2.1, ∀ v ∈ row,
      0 < v ∧ v < 1) ∧
    (∀ row ∈ (coupledForwardBatch cell xs st0).2.2.2.1, ∀ v ∈ row,
      0 < v ∧ v < 1) ∧
    (∀ row ∈ (coupledForwardBatch cell xs st0).2.2.2.2, ∀ v ∈ row,
      -1 < v ∧ v < 1) ∧
    (∀ row ∈ (coupledForwardBatch cell xs st0).2.1, ∀ v ∈ row,
      -1 < v ∧ v < 1) := by
  cases st0 with
  | none =>
    have key : ∀ r ∈ xs.map (fun x => coupledLSTMForward cell x none),
        (∀ v ∈ r.2.2.1, 0 < v ∧ v < 1) ∧
        (∀ v ∈ r.2.2.2.1, 0 < v ∧ v < 1) ∧
        (∀ v ∈ r.2.2.2.2, -1 < v ∧ v < 1) ∧
        (∀ v ∈ r.2.1, -1 < v ∧ v < 1) := by
      intro r hr
      obtain ⟨x, _, rfl⟩ := List.mem_map.mp hr
      exact coupledLSTMForward_bounds cell x none (fun st h => by cases h)
    refine ⟨?_, ?_, ?_, ?_⟩ <;> intro row hrow <;>
      simp only [coupledForwardBatch] at hrow
    · obtain ⟨r, hr, rfl⟩ := List.mem_map.mp hrow
      exact (key r hr).1
    · obtain ⟨r, hr, rfl⟩ := List.mem_map.mp hrow
      exact (key r hr).2.1
    · obtain ⟨r, hr, rfl⟩ := List.mem_map.mp hrow
      exact (key r hr).2.2.1
    · obtain ⟨r, hr, rfl⟩ := List.mem_map.mp hrow
      exact (key r hr).2.2.2
  | some st =>
    have key : ∀ r ∈ (xs.zip (st.1.zip st.2)).map
        (fun p => coupledLSTMForward cell p.1 (some (p.2.1, p.2.2))),
        (∀ v ∈ r.2.2.1, 0 < v ∧ v < 1) ∧
        (∀ v ∈ r.2.2.2.1, 0 < v ∧ v < 1) ∧
        (∀ v ∈ r.2.2.2.2, -1 < v ∧ v < 1) ∧
        (∀ v ∈ r.2.1, -1 < v ∧ v < 1) := by
      intro r hr
      obtain ⟨p, hp, rfl⟩ := List.mem_map.mp hr
      refine coupledLSTMForward_bounds cell p.1 (some (p.2.1, p.2.2)) ?_
      intro st1 hst1 v hv
      cases hst1
      exact h0 st rfl p.2.2 (List.of_mem_zip (List.of_mem_zip hp).2).2 v hv
    refine ⟨?_, ?_, ?_, ?_⟩ <;> intro row hrow <;>
      simp only [coupledForwardBatch] at hrow
    · obtain ⟨r, hr, rfl⟩ := List.mem_map.mp hrow
      exact (key r hr).1
    · obtain ⟨r, hr, rfl⟩ := List.mem_map.mp hrow
      exact (key r hr).2.1
    · obtain ⟨r, hr, rfl⟩ := List.mem_map.mp hrow
      exact (key r hr).2.2.1
    · obtain ⟨r, hr, rfl⟩ := List.mem_map.mp hrow
      exact (key r hr).2.2.2

/-- along any run of the loop from a bounded (or absent) state, all
collected gate signals and every reached cell state stay in range. -/
theorem runInternals_bounds (cell : VisualizeCoupledLSTMCell)
    (data : List (List Vec)) :
    ∀ (steps : List ℕ) (st0 : Option BatchState),
      (∀ st, st0 = some st →
        ∀ row ∈ st.2, ∀ v ∈ row, -1 < v ∧ v < 1) →
      (∀ g ∈ (runInternals cell data steps st0).2,
        (∀ row ∈ g.1, ∀ v ∈ row, 0 < v ∧ v < 1) ∧
        (∀ row ∈ g.2.1, ∀ v ∈ row, 0 < v ∧ v < 1) ∧
        (∀ row ∈ g.2.2, ∀ v ∈ row, -1 < v ∧ v < 1)) ∧
      (∀ stf, (runInternals cell data steps st0).1 = some stf →
        ∀ row ∈ stf.2, ∀ v ∈ row, -1 < v ∧ v < 1)
  | [], st0, h0 => by
    refine ⟨by simp [runInternals], ?_⟩
    intro stf hstf
    exact h0 stf (by simpa [runInternals] using hstf)
  | a :: rest, st0, h0 => by
    have hbatch := coupledForwardBatch_bounds cell
      (data.map (fun s => s.getD a [])) st0 h0
    have hnext : ∀ st, (some
        ((coupledForwardBatch cell (data.map (fun s => s.getD a []))
          st0).1,
         (coupledForwardBatch cell (data.map (fun s => s.getD a []))
          st0).2.1) : Option BatchState) = some st →
        ∀ row ∈ st.2, ∀ v ∈ row, -1 < v ∧ v < 1 := by
      intro st hst
      cases hst
      exact hbatch.2.2.2
    have ih := runInternals_bounds cell data rest _ hnext
    constructor
    · intro g hg
      simp only [runInternals] at hg
      rcases List.mem_cons.mp hg with hg | hg
      · subst hg
        exact ⟨hbatch.1, hbatch.2.1, hbatch.2.2.1⟩
      · exact ih.1 g hg
    · intro stf hstf
      exact ih.2 stf (by simpa [runInternals] using hstf)

/-- C8: bounded-state invariant of the coupled LSTM replay.  Starting
from the `None` (zero) initial state, after any number of steps every
component of the two sigmoid gate signals `f` and `o` lies strictly in
(0, 1), every component of the candidate `c_tilde` lies strictly in
(-1, 1), and every component of every reached cell state lies strictly
in (-1, 1) — in particular all plotted gate values fall inside the
heatmap colour ranges [0, 1] and [-1, 1]. -/
theorem C8_bounded_state_invariant (cell : VisualizeCoupledLSTMCell)
    (data : List (List Vec)) (steps : List ℕ) :
    (∀ g ∈ (runInternals cell data steps none).2,
      (∀ row ∈ g.1, ∀ v ∈ row, 0 < v ∧ v < 1) ∧
      (∀ row ∈ g.2.1, ∀ v ∈ row, 0 < v ∧ v < 1) ∧
      (∀ row ∈ g.2.2, ∀ v ∈ row, -1 < v ∧ v < 1)) ∧
    (∀ stf, (runInternals cell data steps none).1 = some stf →
      ∀ row ∈ stf.2, ∀ v ∈ row, -1 < v ∧ v < 1) :=
  runInternals_bounds cell data steps none (by intro st h; cases h)

/-- C8 witness: the invariant applied to a one-step run of a concrete
1-hidden-unit cell, read at the single collected forget-gate entry. -/
theorem C8_bounded_state_invariant_witness :
    0 < sigmoid 0 ∧ sigmoid 0 < 1 := by
  have h := (C8_bounded_state_invariant ⟨0, 1, [[0]], [[0]], [[0]]⟩
    [[[]]] [0]).1 _ (List.mem_singleton_self _) |>.1 _
    (List.mem_singleton_self _) _ (List.mem_singleton_self _)
  simpa [dot, zeros] using h

/-! ### C9: the character encoding round-trips -/

/-- a found last index really points at the character. -/
theorem lastIndexOf_spec :
    ∀ (vocab : List Char) (c : Char) (k : ℕ),
      lastIndexOf vocab c = some k → vocab[k]? = some c
  | [], _, _, h => by simp [lastIndexOf] at h
  | v :: vs, c, k, h => by
    rcases hvs : lastIndexOf vs c with _ | k'
    · rw [lastIndexOf, hvs] at h
      by_cases hv : v = c
      · simp only [hv, if_pos rfl] at h
        cases h
        simpa using hv
      · simp [hv] at h
    · rw [lastIndexOf, hvs] at h
      cases h
      simpa using lastIndexOf_spec vs c k' hvs

/-- a vocabulary character has a last index. -/
theorem lastIndexOf_mem :
    ∀ (vocab : List Char) (c : Char), c ∈ vocab →
      ∃ k, lastIndexOf vocab c = some k
  | [], c, h => absurd h (by simp)
  | v :: vs, c, h => by
    rcases hvs : lastIndexOf vs c with _ | k'
    · rcases List.mem_cons.mp h with hv | hmem
      · exact ⟨0, by subst hv; simp [lastIndexOf, hvs]⟩
      · obtain ⟨k, hk⟩ := lastIndexOf_mem vs c hmem
        rw [hk] at hvs
        cases hvs
    · exact ⟨k' + 1, by simp [lastIndexOf, hvs]⟩

/-- dict round-trip for one character: `index2char` undoes `char2index`
on the vocabulary (even when the vocabulary repeats a character, since
the stored index still points at an equal character). -/
theorem char_roundtrip (vocab : List Char) (c : Char) (hc : c ∈ vocab) :
    ∃ k, char2index vocab c = some k ∧ index2char vocab k = some c := by
  obtain ⟨k, hk⟩ := lastIndexOf_mem vocab c hc
  exact ⟨k, hk, lastIndexOf_spec vocab c k hk⟩

/-- a traversal whose elements all succeed succeeds, keeping the
length. -/
theorem traverseOption_some (f : α → Option β) :
    ∀ l : List α, (∀ a ∈ l, ∃ b, f a = some b) →
      ∃ bs, traverseOption f l = some bs ∧ bs.length = l.length
  | [], _ => ⟨[], rfl, rfl⟩
  | a :: as, h => by
    obtain ⟨b, hb⟩ := h a (List.mem_cons_self a as)
    obtain ⟨bs, hbs, hlen⟩ := traverseOption_some f as
      (fun x hx => h x (List.mem_cons_of_mem a hx))
    exact ⟨b :: bs, by simp [traverseOption, hb, hbs], by simp [hlen]⟩

/-- a traversal with a pointwise inverse round-trips. -/
theorem traverseOption_roundtrip (f : α → Option β) (g : β → Option α) :
    ∀ l : List α, (∀ a ∈ l, ∃ b, f a = some b ∧ g b = some a) →
      ∃ bs, traverseOption f l = some bs ∧
        traverseOption g bs = some l ∧ bs.length = l.length
  | [], _ => ⟨[], rfl, rfl, rfl⟩
  | a :: as, h => by
    obtain ⟨b, hfb, hgb⟩ := h a (List.mem_cons_self a as)
    obtain ⟨bs, hfs, hgs, hlen⟩ := traverseOption_roundtrip f g as
      (fun x hx => h x (List.mem_cons_of_mem a hx))
    exact ⟨b :: bs, by simp [traverseOption, hfb, hfs],
      by simp [traverseOption, hgb, hgs], by simp [hlen]⟩

/-- C9: round-trip of the character encoding.  When every character of
line `i` is in the vocabulary, `convert_to_chars` applied to the index
sequence returned by `__getitem__ i` yields exactly the characters of
that line, in order. -/
theorem C9_encoding_roundtrip (vocab : List Char) (lines : List String)
    (i : ℕ) (line : String) (hline : lines[i]? = some line)
    (hvoc : ∀ c ∈ line.toList, c ∈ vocab) :
    ∃ idxs,
      getItem ⟨vocab, lines⟩ i = some idxs ∧
      convert_to_chars ⟨vocab, lines⟩ idxs = some line.toList := by
  obtain ⟨idxs, h1, h2, _⟩ := traverseOption_roundtrip
    (char2index vocab) (index2char vocab) line.toList
    (fun c hc => char_roundtrip vocab c (hvoc c hc))
  refine ⟨idxs, ?_, h2⟩
  show (match lines[i]? with
    | none => none
    | some l => traverseOption (char2index vocab) l.toList) = some idxs
  rw [hline]
  exact h1

/-- C9 witness: the round-trip at a concrete two-character vocabulary
and a concrete line. -/
theorem C9_encoding_roundtrip_witness :
    ((["ab"] : List String)[0]? = some "ab") ∧
    (∀ c ∈ "ab".toList, c ∈ ['a', 'b', 'c']) ∧
    (∃ idxs,
      getItem ⟨['a', 'b', 'c'], ["ab"]⟩ 0 = some idxs ∧
      convert_to_chars ⟨['a', 'b', 'c'], ["ab"]⟩ idxs =
        some "ab".toList) :=
  ⟨rfl, by decide,
    C9_encoding_roundtrip ['a', 'b', 'c'] ["ab"] 0 "ab" rfl (by decide)⟩

/-! ### C1, C4, C7: the visualizer pipeline -/

/-- saving the update-signal heatmap of sequence `i`. -/
theorem visualize_internals_update_eq (i : ℕ) (chars : List Char)
    (sts : List (List Vec)) :
    visualize_internals i chars "update_signals" sts "visualize/" =
      some { sequence_id := i
             path := "visualize/" ++ sequenceIdTag i
               ++ "update_signals.png"
             vmin := 0, vmax := 1
             plotted := sts.flatMap (fun b => b), labels := chars } := by
  unfold visualize_internals
  rw [if_pos (Or.inl rfl)]
  rw [show pyLower "update_signals" = "update_signals" from by decide,
    String.append_assoc]
  rfl

/-- saving the reset-signal heatmap of sequence `i`. -/
theorem visualize_internals_reset_eq (i : ℕ) (chars : List Char)
    (sts : List (List Vec)) :
    visualize_internals i chars "reset_signals" sts "visualize/" =
      some { sequence_id := i
             path := "visualize/" ++ sequenceIdTag i
               ++ "reset_signals.png"
             vmin := 0, vmax := 1
             plotted := sts.flatMap (fun b => b), labels := chars } := by
  unfold visualize_internals
  rw [if_pos (Or.inr rfl)]
  rw [show pyLower "reset_signals" = "reset_signals" from by decide,
    String.append_assoc]
  rfl

/-- saving the cell-candidate heatmap of sequence `i`. -/
theorem visualize_internals_cell_eq (i : ℕ) (chars : List Char)
    (sts : List (List Vec)) :
    visualize_internals i chars "cell_state_candidates" sts
        "visualize/" =
      some { sequence_id := i
             path := "visualize/" ++ sequenceIdTag i
               ++ "cell_state_candidates.png"
             vmin := -1, vmax := 1
             plotted := sts.flatMap (fun b => b), labels := chars } := by
  unfold visualize_internals
  rw [if_neg (by decide), if_pos rfl]
  rw [show pyLower "cell_state_candidates" = "cell_state_candidates"
    from by decide, String.append_assoc]
  rfl

/-- the visualizer loop over any list of valid dataset indices emits,
for each index in order, exactly the update, reset and cell-candidate
images of that sequence. -/
theorem visualizerLoop_spec (model : VisualizeInternalGates)
    (ds : VisualizeWarAndPeaceDataset) :
    ∀ steps : List ℕ,
      (∀ i ∈ steps, ∃ line, ds.data[i]? = some line ∧
        line.toList ≠ [] ∧ ∀ c ∈ line.toList, c ∈ ds.vocabulary) →
      (visualizerLoop model ds steps).map
          (fun img => (img.sequence_id, img.path)) =
        steps.flatMap (fun i =>
          [(i, "visualize/" ++ sequenceIdTag i ++ "update_signals.png"),
           (i, "visualize/" ++ sequenceIdTag i ++ "reset_signals.png"),
           (i, "visualize/" ++ sequenceIdTag i
             ++ "cell_state_candidates.png")])
  | [], _ => by simp [visualizerLoop]
  | i :: rest, h => by
    obtain ⟨line, hline, hne, hvoc⟩ := h i (List.mem_cons_self i rest)
    obtain ⟨seq, hseq, hconv, hlen⟩ := traverseOption_roundtrip
      (char2index ds.vocabulary) (index2char ds.vocabulary) line.toList
      (fun c hc => char_roundtrip _ c (hvoc c hc))
    have hget : getItem ds i = some seq := by
      show (match ds.data[i]? with
        | none => none
        | some l =>
          traverseOption (char2index ds.vocabulary) l.toList) = some seq
      rw [hline]
      exact hseq
    have hT : 1 ≤ seq.length := by
      rw [hlen]
      rcases hl : line.toList with _ | ⟨c, cs⟩
      · exact absurd hl hne
      · simp
    obtain ⟨st, hst, hfwd⟩ := internalGatesForward_success model [seq]
      seq.length (by intro s hs; rw [List.mem_singleton.mp hs])
      (by simp) hT
    have hrest := visualizerLoop_spec model ds rest
      (fun j hj => h j (List.mem_cons_of_mem i hj))
    show (match getItem ds i with
      | none => []
      | some seq =>
        match convert_to_chars ds seq with
        | none => []
        | some chars =>
          match internalGatesForward model [seq] with
          | none => []
          | some r =>
            match visualize_internals i chars "update_signals"
                r.2.update_signals "visualize/",
              visualize_internals i chars "reset_signals"
                r.2.reset_signals "visualize/",
              visualize_internals i chars "cell_state_candidates"
                r.2.cell_state_candidates "visualize/" with
            | some a, some b, some c =>
              a :: b :: c :: visualizerLoop model ds rest
            | _, _, _ => ([] : List SavedImage)).map
        (fun (img : SavedImage) => (img.sequence_id, img.path)) = _
    simp only [hget, convert_to_chars, hconv, hfwd,
      visualize_internals_update_eq, visualize_internals_reset_eq,
      visualize_internals_cell_eq, List.map_cons, List.flatMap_cons,
      List.cons_append, List.nil_append, hrest]

/-- C1 (code bug): the replay model ignores the loaded checkpoint.
`war_and_peace_visualizer` constructs `VisualizeInternalGates()` from
fresh random draws and never calls `load_state_dict` (line 308 is
commented out), so the model equals the freshly initialised one and the
whole run is unchanged when the checkpoint's stored model tensors are
replaced by any others (only the stored vocabulary is read). -/
theorem C1_replay_ignores_checkpoint_weights (vocab : List Char)
    (p1 p2 : Draws) (freshDraws : Draws) (lines : List String) :
    warAndPeaceModel ⟨vocab, p1⟩ freshDraws =
      visualizeInternalGatesInit freshDraws ∧
    warAndPeaceRun ⟨vocab, p1⟩ freshDraws lines =
      warAndPeaceRun ⟨vocab, p2⟩ freshDraws lines :=
  ⟨rfl, rfl⟩

/-- C4: on a dataset of non-empty in-vocabulary lines, the program
writes exactly one image per gate per sequence, named
`visualize/S%02d_<gate>.png` with the lower-cased gate name. -/
theorem C4_one_image_per_gate_per_sequence (ckpt : Checkpoint)
    (freshDraws : Draws) (lines : List String)
    (h : ∀ line ∈ lines, line.toList ≠ [] ∧
      ∀ c ∈ line.toList, c ∈ ckpt.vocabulary) :
    (warAndPeaceRun ckpt freshDraws lines).map (fun img => img.path) =
      (List.range lines.length).flatMap (fun i =>
        ["visualize/" ++ sequenceIdTag i ++ "update_signals.png",
         "visualize/" ++ sequenceIdTag i ++ "reset_signals.png",
         "visualize/" ++ sequenceIdTag i
           ++ "cell_state_candidates.png"]) := by
  have hspec := visualizerLoop_spec (warAndPeaceModel ckpt freshDraws)
    ⟨ckpt.vocabulary, lines⟩ (List.range lines.length) (by
      intro i hi
      rw [List.mem_range] at hi
      exact ⟨lines[i], List.getElem?_eq_getElem hi,
        (h lines[i] (List.getElem_mem hi)).1,
        (h lines[i] (List.getElem_mem hi)).2⟩)
  have hrw : warAndPeaceRun ckpt freshDraws lines =
      visualizerLoop (warAndPeaceModel ckpt freshDraws)
        ⟨ckpt.vocabulary, lines⟩ (List.range lines.length) := rfl
  have hcomp : (warAndPeaceRun ckpt freshDraws lines).map
      (fun img => img.path) =
      ((warAndPeaceRun ckpt freshDraws lines).map
        (fun img => (img.sequence_id, img.path))).map Prod.snd := by
    simp [List.map_map, Function.comp]
  rw [hcomp, hrw, hspec]
  simp [List.map_flatMap]

/-- C4 witness: the theorem applied to a one-line dataset. -/
theorem C4_one_image_per_gate_per_sequence_witness :
    (∀ line ∈ (["a"] : List String), line.toList ≠ [] ∧
      ∀ c ∈ line.toList, c ∈ ['a']) ∧
    (warAndPeaceRun
        ⟨['a'], ⟨fun _ _ => 0, fun _ _ => 0, fun _ _ => 0, fun _ _ => 0,
          fun _ _ => 0, fun _ => 0⟩⟩
        ⟨fun _ _ => 0, fun _ _ => 0, fun _ _ => 0, fun _ _ => 0,
          fun _ _ => 0, fun _ => 0⟩ ["a"]).map (fun img => img.path) =
      (List.range (["a"] : List String).length).flatMap (fun i =>
        ["visualize/" ++ sequenceIdTag i ++ "update_signals.png",
         "visualize/" ++ sequenceIdTag i ++ "reset_signals.png",
         "visualize/" ++ sequenceIdTag i
           ++ "cell_state_candidates.png"]) :=
  ⟨by decide,
    C4_one_image_per_gate_per_sequence
      ⟨['a'], ⟨fun _ _ => 0, fun _ _ => 0, fun _ _ => 0, fun _ _ => 0,
        fun _ _ => 0, fun _ => 0⟩⟩
      ⟨fun _ _ => 0, fun _ _ => 0, fun _ _ => 0, fun _ _ => 0,
        fun _ _ => 0, fun _ => 0⟩ ["a"] (by decide)⟩

/-- C7: the run is a single pass in index order: the emitted images
carry the sequence indices `0, 1, ..., len-1`, each exactly three times
consecutively, so every line is processed exactly once and all heatmaps
of sequence `i` are written before any heatmap of sequence `i + 1`. -/
theorem C7_single_pass_in_order (ckpt : Checkpoint)
    (freshDraws : Draws) (lines : List String)
    (h : ∀ line ∈ lines, line.toList ≠ [] ∧
      ∀ c ∈ line.toList, c ∈ ckpt.vocabulary) :
    (warAndPeaceRun ckpt freshDraws lines).map
        (fun img => img.sequence_id) =
      (List.range lines.length).flatMap
        (fun i => List.replicate 3 i) := by
  have hspec := visualizerLoop_spec (warAndPeaceModel ckpt freshDraws)
    ⟨ckpt.vocabulary, lines⟩ (List.range lines.length) (by
      intro i hi
      rw [List.mem_range] at hi
      exact ⟨lines[i], List.getElem?_eq_getElem hi,
        (h lines[i] (List.getElem_mem hi)).1,
        (h lines[i] (List.getElem_mem hi)).2⟩)
  have hrw : warAndPeaceRun ckpt freshDraws lines =
      visualizerLoop (warAndPeaceModel ckpt freshDraws)
        ⟨ckpt.vocabulary, lines⟩ (List.range lines.length) := rfl
  have hcomp : (warAndPeaceRun ckpt freshDraws lines).map
      (fun img => img.sequence_id) =
      ((warAndPeaceRun ckpt freshDraws lines).map
        (fun img => (img.sequence_id, img.path))).map Prod.fst := by
    simp [List.map_map, Function.comp]
  rw [hcomp, hrw, hspec]
  simp [List.map_flatMap, List.replicate_succ]

/-- C7 witness: the theorem applied to a two-line dataset. -/
theorem C7_single_pass_in_order_witness :
    (∀ line ∈ (["a", "aa"] : List String), line.toList ≠ [] ∧
      ∀ c ∈ line.toList, c ∈ ['a']) ∧
    (warAndPeaceRun
        ⟨['a'], ⟨fun _ _ => 0, fun _ _ => 0, fun _ _ => 0, fun _ _ => 0,
          fun _ _ => 0, fun _ => 0⟩⟩
        ⟨fun _ _ => 0, fun _ _ => 0, fun _ _ => 0, fun _ _ => 0,
          fun _ _ => 0, fun _ => 0⟩ ["a", "aa"]).map
        (fun img => img.sequence_id) =
      (List.range (["a", "aa"] : List String).length).flatMap
        (fun i => List.replicate 3 i) :=
  ⟨by decide,
    C7_single_pass_in_order
      ⟨['a'], ⟨fun _ _ => 0, fun _ _ => 0, fun _ _ => 0, fun _ _ => 0,
        fun _ _ => 0, fun _ => 0⟩⟩
      ⟨fun _ _ => 0, fun _ _ => 0, fun _ _ => 0, fun _ _ => 0,
        fun _ _ => 0, fun _ => 0⟩ ["a", "aa"] (by decide)⟩

end

end Visualization
